import Mathlib

/-!
Shallow embedding of the core of `slime_shapes/shapes.py`: the
`Position` record with its bounding-box intersection test, the
rejection-sampling layout routine `get_positions`, and the `Square` /
`Circle` mask rasterizers with in-place painting (`add_to_image`).

Python machine behaviour is modelled as follows:
* Python `int` is `Int` (arbitrary precision in both).
* `random.randint(a, b)` is modelled as a function of an external
  random draw `r : Nat`, returning `a + r % (b - a + 1)` when `a ≤ b`
  and `none` (a `ValueError`) otherwise — every value of `[a, b]` is
  reachable as `r` varies, and nothing outside it ever is.
* `canvas_size/10` is Python true division producing a float;
  `randint` accepts such a float only when it is integral and raises
  `ValueError` otherwise, so the pair (division, use by `randint`) is
  modelled by `intDivExact`, which succeeds exactly on divisible
  inputs and then agrees with integer division.
* the unbounded `while True` retry loop is given explicit fuel; a run
  of the Python code that returns corresponds to `some` for a large
  enough fuel, and every `some` result of the model is a possible run.
* a numpy image buffer is a total function from pixel coordinates to
  colours, with the array extent `H × W` carried separately; boolean
  mask assignment `target[mask] = colour` is `npBoolSet`.
* the float arithmetic in `Circle._mask` (`size / 2` and the squared
  distances) is exact for all pixel/size magnitudes this library is
  used at, so it is modelled with exact rational arithmetic.
-/

/-- Embeds the dataclass `Position(size, x_position, y_position)`. -/
structure Position where
  size : Int
  x_position : Int
  y_position : Int
deriving DecidableEq

/-- Embeds `Position._1d_intersect(x_1, size_1, x_2, size_2)`:
`(x_1 <= x_2 <= x_1 + size_1) or (x_1 <= x_2 + size_2 <= x_1 + size_2)`.
(The name starts with a digit in Python, which Lean does not allow.) -/
def Position.oneD_intersect (x_1 size_1 x_2 size_2 : Int) : Bool :=
  (decide (x_1 ≤ x_2) && decide (x_2 ≤ x_1 + size_1)) ||
  (decide (x_1 ≤ x_2 + size_2) && decide (x_2 + size_2 ≤ x_1 + size_2))

/-- Embeds `Position.intersects(self, other)`: the 1-D test on the x
axis ANDed with the 1-D test on the y axis. -/
def Position.intersects (self other : Position) : Bool :=
  Position.oneD_intersect self.x_position self.size other.x_position other.size &&
  Position.oneD_intersect self.y_position self.size other.y_position other.size

/-- Propositional unfolding of `Position.oneD_intersect`. -/
theorem oneD_intersect_iff (x_1 size_1 x_2 size_2 : Int) :
    Position.oneD_intersect x_1 size_1 x_2 size_2 = true ↔
      ((x_1 ≤ x_2 ∧ x_2 ≤ x_1 + size_1) ∨
        (x_1 ≤ x_2 + size_2 ∧ x_2 + size_2 ≤ x_1 + size_2)) := by
  simp [Position.oneD_intersect]

/-- With non-negative sizes the code's 1-D test is the standard
closed-interval overlap predicate. -/
theorem oneD_intersect_eq_overlap (x_1 size_1 x_2 size_2 : Int)
    (h1 : 0 ≤ size_1) (h2 : 0 ≤ size_2) :
    Position.oneD_intersect x_1 size_1 x_2 size_2 = true ↔
      (x_2 ≤ x_1 + size_1 ∧ x_1 ≤ x_2 + size_2) := by
  rw [oneD_intersect_iff]
  omega

/-- The 2-D intersection test is symmetric for non-negative sizes. -/
theorem intersects_symm (p q : Position) (hp : 0 ≤ p.size) (hq : 0 ≤ q.size) :
    p.intersects q = q.intersects p := by
  have hx := oneD_intersect_eq_overlap p.x_position p.size q.x_position q.size hp hq
  have hx2 := oneD_intersect_eq_overlap q.x_position q.size p.x_position p.size hq hp
  have hy := oneD_intersect_eq_overlap p.y_position p.size q.y_position q.size hp hq
  have hy2 := oneD_intersect_eq_overlap q.y_position q.size p.y_position p.size hq hp
  rw [Bool.eq_iff_iff]
  simp only [Position.intersects, Bool.and_eq_true]
  rw [hx, hx2, hy, hy2]
  constructor <;> intro h <;> exact ⟨⟨h.1.2, h.1.1⟩, ⟨h.2.2, h.2.1⟩⟩

/-- C1 counterexample: at `x_1 = 5, size_1 = 1, x_2 = 0, size_2 = 7`
the code returns `true` (the interval `[0, 7]` strictly contains
`[5, 6]`), while the claimed characterisation — `x_2 ∈ [x_1, x_1+size_1]`
or `x_2+size_2 ∈ [x_1, x_1+size_1]` — is false. -/
theorem c1_counterexample :
    Position.oneD_intersect 5 1 0 7 = true ∧
      ¬ (((5:Int) ≤ 0 ∧ (0:Int) ≤ 5 + 1) ∨ ((5:Int) ≤ 0 + 7 ∧ (0:Int) + 7 ≤ 5 + 1)) := by
  constructor
  · decide
  · decide

/-- C1 (amended): `Position._1d_intersect x_1 size_1 x_2 size_2` returns
true iff `x_2` falls within the closed interval `[x_1, x_1 + size_1]` OR
`x_1` falls within the closed interval `[x_2, x_2 + size_2]` (the second
disjunct of the source compares `x_2 + size_2` against `x_1 + size_2`,
not `x_1 + size_1`, which is equivalent to this containment). -/
theorem c1_oneD_intersect_characterisation (x_1 size_1 x_2 size_2 : Int) :
    Position.oneD_intersect x_1 size_1 x_2 size_2 = true ↔
      ((x_1 ≤ x_2 ∧ x_2 ≤ x_1 + size_1) ∨ (x_2 ≤ x_1 ∧ x_1 ≤ x_2 + size_2)) := by
  rw [oneD_intersect_iff]
  omega

/-- Translated from the spec's words for the refinement claim C5: the
standard closed-interval overlap test on `[x_1, x_1+size_1]` and
`[x_2, x_2+size_2]`. -/
def standard_overlap (x_1 size_1 x_2 size_2 : Int) : Bool :=
  decide (x_2 ≤ x_1 + size_1) && decide (x_1 ≤ x_2 + size_2)

/-- C5: for non-negative sizes the code's 1-D intersection test agrees
with the standard closed-interval overlap test. -/
theorem c5_oneD_intersect_refines_overlap (x_1 size_1 x_2 size_2 : Int)
    (h1 : 0 ≤ size_1) (h2 : 0 ≤ size_2) :
    Position.oneD_intersect x_1 size_1 x_2 size_2 =
      standard_overlap x_1 size_1 x_2 size_2 := by
  have h := oneD_intersect_eq_overlap x_1 size_1 x_2 size_2 h1 h2
  rw [Bool.eq_iff_iff]
  simp only [standard_overlap, Bool.and_eq_true, decide_eq_true_iff]
  exact h

/-- C5 witness at `x_1 = 0, size_1 = 4, x_2 = 2, size_2 = 3`. -/
theorem c5_witness :
    (0:Int) ≤ 4 ∧ (0:Int) ≤ 3 ∧
      Position.oneD_intersect 0 4 2 3 = standard_overlap 0 4 2 3 :=
  ⟨by decide, by decide, c5_oneD_intersect_refines_overlap 0 4 2 3 (by decide) (by decide)⟩

/-- C6: for non-negative sizes, `p.intersects q = q.intersects p`. -/
theorem c6_intersects_symmetric (p q : Position) (hp : 0 ≤ p.size) (hq : 0 ≤ q.size) :
    p.intersects q = q.intersects p :=
  intersects_symm p q hp hq

/-- C6 witness on the concrete pair `(3, 0, 0)` and `(2, 2, 1)`. -/
theorem c6_witness :
    (0:Int) ≤ (Position.mk 3 0 0).size ∧ (0:Int) ≤ (Position.mk 2 2 1).size ∧
      (Position.mk 3 0 0).intersects (Position.mk 2 2 1) =
        (Position.mk 2 2 1).intersects (Position.mk 3 0 0) :=
  ⟨by decide, by decide,
    c6_intersects_symmetric (Position.mk 3 0 0) (Position.mk 2 2 1) (by decide) (by decide)⟩

/-- Models `random.randint(a, b)` applied to one external random draw
`r`: every value of the inclusive range `[a, b]` and nothing else;
`none` models the `ValueError` raised when `a > b`. -/
def randint (a b : Int) (r : Nat) : Option Int :=
  if a ≤ b then some (a + (r : Int) % (b - a + 1)) else none

/-- Models the Python float division `a/b` at the point where
`randint` consumes it: `randint` accepts the float only when it is
integral (raising `ValueError` otherwise), and an integral quotient
equals the integer division `a / b`. -/
def intDivExact (a b : Int) : Option Int :=
  if b ∣ a then some (a / b) else none

/-- Embeds the inner function `random_position()` of `get_positions`,
with the three `randint` calls fed by the external draws `r1 r2 r3`:
`size = randint(canvas_size/10, canvas_size/4)`, then `x` and `y`
from `randint(0, canvas_size - shape_size)`. -/
def random_position (canvas_size : Int) (r1 r2 r3 : Nat) : Option Position :=
  (intDivExact canvas_size 10).bind fun lo =>
  (intDivExact canvas_size 4).bind fun hi =>
  (randint lo hi r1).bind fun shape_size =>
  (randint 0 (canvas_size - shape_size) r2).bind fun x_position =>
  (randint 0 (canvas_size - shape_size) r3).bind fun y_position =>
  some ⟨shape_size, x_position, y_position⟩

/-- Embeds the inner function `add()` of `get_positions`: the
`while True` retry loop, with explicit `fuel` bounding the number of
attempts modelled and `ctr` indexing into the stream `rng` of random
draws (three draws per attempt). The candidate is accepted iff it
intersects no element of `positions[1:]`. -/
def addLoop (canvas_size : Int) (rng : Nat → Nat) :
    Nat → List Position → Nat → Option (List Position × Nat)
  | _, _, 0 => none
  | ctr, positions, fuel + 1 =>
    match random_position canvas_size (rng ctr) (rng (ctr + 1)) (rng (ctr + 2)) with
    | none => none
    | some new_position =>
      if (positions.drop 1).any (fun existing_position =>
          new_position.intersects existing_position) then
        addLoop canvas_size rng (ctr + 3) positions fuel
      else
        some (positions ++ [new_position], ctr + 3)

/-- The `for _ in range(count): add()` loop of `get_positions`. -/
def getPositionsLoop (canvas_size : Int) (rng : Nat → Nat) (fuel : Nat) :
    Nat → Nat → List Position → Option (List Position)
  | 0, _, positions => some positions
  | n + 1, ctr, positions =>
    match addLoop canvas_size rng ctr positions fuel with
    | none => none
    | some (positions2, ctr2) => getPositionsLoop canvas_size rng fuel n ctr2 positions2

/-- Embeds `get_positions(canvas_size, count)`: seed with the canvas
placement `Position(canvas_size, 0, 0)` and call `add()` `count`
times. `rng` is the stream of random draws; `fuel` bounds each retry
loop; `none` covers both exceptions and runs longer than the fuel. -/
def get_positions (canvas_size : Int) (count : Nat) (rng : Nat → Nat) (fuel : Nat) :
    Option (List Position) :=
  getPositionsLoop canvas_size rng fuel count 0 [⟨canvas_size, 0, 0⟩]

/-- A successful `randint` draw lies in the requested range. -/
theorem randint_spec (a b : Int) (r : Nat) (v : Int) (h : randint a b r = some v) :
    a ≤ v ∧ v ≤ b := by
  unfold randint at h
  split at h
  · rename_i hab
    have h1 : (0:Int) ≤ (r : Int) % (b - a + 1) := Int.emod_nonneg _ (by omega)
    have h2 : (r : Int) % (b - a + 1) < b - a + 1 := Int.emod_lt_of_pos _ (by omega)
    injection h with h
    omega
  · exact Option.noConfusion h

/-- A successful `intDivExact` is an exact integer quotient. -/
theorem intDivExact_spec (a b v : Int) (h : intDivExact a b = some v) :
    b ∣ a ∧ v = a / b := by
  unfold intDivExact at h
  split at h
  · rename_i hd
    injection h with h
    exact ⟨hd, h.symm⟩
  · exact Option.noConfusion h

/-- Every placement drawn by `random_position` is in range: size
between `canvas_size/10` and `canvas_size/4` (hence non-negative) and
the box inside the canvas on both axes. -/
theorem random_position_spec (canvas_size : Int) (r1 r2 r3 : Nat) (p : Position)
    (h : random_position canvas_size r1 r2 r3 = some p) :
    canvas_size / 10 ≤ p.size ∧ p.size ≤ canvas_size / 4 ∧ 0 ≤ p.size ∧
      0 ≤ p.x_position ∧ p.x_position + p.size ≤ canvas_size ∧
      0 ≤ p.y_position ∧ p.y_position + p.size ≤ canvas_size := by
  simp only [random_position, Option.bind_eq_some] at h
  obtain ⟨lo, hlo, hi, hhi, s, hs, x, hx, y, hy, hp⟩ := h
  obtain ⟨hd10, hlo2⟩ := intDivExact_spec _ _ _ hlo
  obtain ⟨hd4, hhi2⟩ := intDivExact_spec _ _ _ hhi
  have hs2 := randint_spec _ _ _ _ hs
  have hx2 := randint_spec _ _ _ _ hx
  have hy2 := randint_spec _ _ _ _ hy
  injection hp with hp
  subst hp
  subst hlo2
  subst hhi2
  refine ⟨?_, ?_, ?_, ?_, ?_, ?_, ?_⟩ <;> dsimp only <;> omega

/-- A successful `add()` appends exactly one in-range placement that
intersects none of the previously accepted non-canvas placements. -/
theorem addLoop_spec (canvas_size : Int) (rng : Nat → Nat) :
    ∀ (fuel ctr : Nat) (first : Position) (rest ps : List Position) (ctr2 : Nat),
      addLoop canvas_size rng ctr (first :: rest) fuel = some (ps, ctr2) →
      ∃ p, ps = first :: (rest ++ [p]) ∧
        (canvas_size / 10 ≤ p.size ∧ p.size ≤ canvas_size / 4 ∧ 0 ≤ p.size ∧
          0 ≤ p.x_position ∧ p.x_position + p.size ≤ canvas_size ∧
          0 ≤ p.y_position ∧ p.y_position + p.size ≤ canvas_size) ∧
        ∀ q ∈ rest, p.intersects q = false := by
  intro fuel
  induction fuel with
  | zero => intro ctr first rest ps ctr2 h; exact Option.noConfusion h
  | succ n ih =>
    intro ctr first rest ps ctr2 h
    unfold addLoop at h
    cases hrp : random_position canvas_size (rng ctr) (rng (ctr + 1)) (rng (ctr + 2)) with
    | none => rw [hrp] at h; exact Option.noConfusion h
    | some new_position =>
      rw [hrp] at h
      simp only [List.drop_succ_cons, List.drop_zero] at h
      by_cases hint : rest.any (fun existing_position =>
          new_position.intersects existing_position) = true
      · rw [if_pos hint] at h
        exact ih (ctr + 3) first rest ps ctr2 h
      · rw [if_neg hint] at h
        injection h with h
        injection h with h1 h2
        refine ⟨new_position, ?_, random_position_spec _ _ _ _ _ hrp, ?_⟩
        · rw [← h1]; simp
        · intro q hq
          simp only [List.any_eq_true, not_exists, not_and] at hint
          have := hint q hq
          simpa using this

/-- Invariant of the `for _ in range(count)` loop: `count` successful
`add()` calls extend the list with in-range placements, each
non-intersecting with everything before it (canvas excluded). -/
theorem getPositionsLoop_spec (canvas_size : Int) (rng : Nat → Nat) (fuel : Nat) :
    ∀ (n ctr : Nat) (first : Position) (rest ps : List Position),
      getPositionsLoop canvas_size rng fuel n ctr (first :: rest) = some ps →
      ∃ rest2 : List Position,
        ps = first :: (rest ++ rest2) ∧
        rest2.length = n ∧
        (∀ p ∈ rest2,
          canvas_size / 10 ≤ p.size ∧ p.size ≤ canvas_size / 4 ∧ 0 ≤ p.size ∧
          0 ≤ p.x_position ∧ p.x_position + p.size ≤ canvas_size ∧
          0 ≤ p.y_position ∧ p.y_position + p.size ≤ canvas_size) ∧
        (∀ p ∈ rest2, ∀ q ∈ rest, p.intersects q = false) ∧
        rest2.Pairwise (fun q p => p.intersects q = false) := by
  intro n
  induction n with
  | zero =>
    intro ctr first rest ps h
    unfold getPositionsLoop at h
    injection h with h
    exact ⟨[], by simp [h.symm], rfl, by simp, by simp, List.Pairwise.nil⟩
  | succ m ih =>
    intro ctr first rest ps h
    unfold getPositionsLoop at h
    cases hadd : addLoop canvas_size rng ctr (first :: rest) fuel with
    | none => rw [hadd] at h; exact Option.noConfusion h
    | some v =>
      obtain ⟨ps1, ctr2⟩ := v
      rw [hadd] at h
      obtain ⟨p, hps1, hpr, hpint⟩ :=
        addLoop_spec canvas_size rng fuel ctr first rest ps1 ctr2 hadd
      subst hps1
      obtain ⟨rest2, hps, hlen, hrange, hcross, hpw⟩ := ih ctr2 first (rest ++ [p]) ps h
      refine ⟨p :: rest2, ?_, by simp [hlen], ?_, ?_, ?_⟩
      · rw [hps]; simp
      · intro q hq
        rcases List.mem_cons.mp hq with hq | hq
        · subst hq; exact hpr
        · exact hrange q hq
      · intro a ha q hq
        rcases List.mem_cons.mp ha with ha | ha
        · subst ha; exact hpint q hq
        · exact hcross a ha q (by simp [hq])
      · refine List.pairwise_cons.mpr ⟨?_, hpw⟩
        intro a ha
        exact hcross a ha p (by simp)

/-- Top-level invariant of `get_positions`: on success the result is
the canvas placement followed by `count` in-range placements, with
each later placement non-intersecting every earlier non-canvas one. -/
theorem get_positions_spec (canvas_size : Int) (count fuel : Nat) (rng : Nat → Nat)
    (ps : List Position) (h : get_positions canvas_size count rng fuel = some ps) :
    ∃ rest : List Position,
      ps = Position.mk canvas_size 0 0 :: rest ∧
      rest.length = count ∧
      (∀ p ∈ rest,
        canvas_size / 10 ≤ p.size ∧ p.size ≤ canvas_size / 4 ∧ 0 ≤ p.size ∧
        0 ≤ p.x_position ∧ p.x_position + p.size ≤ canvas_size ∧
        0 ≤ p.y_position ∧ p.y_position + p.size ≤ canvas_size) ∧
      rest.Pairwise (fun q p => p.intersects q = false) := by
  obtain ⟨rest2, hps, hlen, hrange, _, hpw⟩ :=
    getPositionsLoop_spec canvas_size rng fuel count 0 (Position.mk canvas_size 0 0) [] ps h
  exact ⟨rest2, by simpa using hps, hlen, hrange, hpw⟩

/-- C2: whenever `get_positions` terminates, any two distinct
non-canvas placements in its result have non-intersecting bounding
boxes, in both argument orders of `intersects`. -/
theorem c2_pairwise_disjoint (canvas_size : Int) (count fuel : Nat) (rng : Nat → Nat)
    (ps : List Position) (h : get_positions canvas_size count rng fuel = some ps)
    (i j : Nat) (hi0 : 0 < i) (hj0 : 0 < j) (hij : i ≠ j)
    (hi : i < ps.length) (hj : j < ps.length) :
    (ps.get ⟨i, hi⟩).intersects (ps.get ⟨j, hj⟩) = false := by
  obtain ⟨rest, hps, hlen, hrange, hpw⟩ := get_positions_spec _ _ _ _ _ h
  subst hps
  obtain ⟨i2, rfl⟩ : ∃ k, i = k + 1 := ⟨i - 1, by omega⟩
  obtain ⟨j2, rfl⟩ : ∃ k, j = k + 1 := ⟨j - 1, by omega⟩
  have hi2 : i2 < rest.length := by simpa using hi
  have hj2 : j2 < rest.length := by simpa using hj
  simp only [List.get_eq_getElem, List.getElem_cons_succ]
  have hwk := List.pairwise_iff_getElem.mp hpw
  have hszi : 0 ≤ (rest[i2]).size := (hrange _ (List.getElem_mem hi2)).2.2.1
  have hszj : 0 ≤ (rest[j2]).size := (hrange _ (List.getElem_mem hj2)).2.2.1
  rcases Nat.lt_or_ge i2 j2 with hlt | hge
  · rw [intersects_symm _ _ hszi hszj]
    exact hwk i2 j2 hi2 hj2 hlt
  · exact hwk j2 i2 hj2 hi2 (by omega)

/-- C2 witness: a terminating two-shape run on canvas 20 fed by the
identity draw stream; its two non-canvas placements do not intersect. -/
theorem c2_witness :
    Position.intersects (Position.mk 2 1 2) (Position.mk 5 4 5) = false := by
  have h : get_positions 20 2 (fun n => n) 1 =
      some [Position.mk 20 0 0, Position.mk 2 1 2, Position.mk 5 4 5] := by decide
  exact c2_pairwise_disjoint 20 2 1 (fun n => n) _ h 1 2 (by decide) (by decide)
    (by decide) (by decide) (by decide)

/-- C3: whenever `get_positions` terminates it returns `count + 1`
placements, the first being the full-canvas placement. -/
theorem c3_length_and_head (canvas_size : Int) (count fuel : Nat) (rng : Nat → Nat)
    (ps : List Position) (h : get_positions canvas_size count rng fuel = some ps) :
    ps.length = count + 1 ∧ ps.head? = some (Position.mk canvas_size 0 0) := by
  obtain ⟨rest, hps, hlen, _, _⟩ := get_positions_spec _ _ _ _ _ h
  subst hps
  simp [hlen]

/-- C3 witness: the concrete run `get_positions 20 2` with the
identity draw stream returns three placements headed by the canvas. -/
theorem c3_witness :
    ([Position.mk 20 0 0, Position.mk 2 1 2, Position.mk 5 4 5] : List Position).length
        = 2 + 1 ∧
      ([Position.mk 20 0 0, Position.mk 2 1 2, Position.mk 5 4 5] : List Position).head?
        = some (Position.mk 20 0 0) := by
  have h : get_positions 20 2 (fun n => n) 1 =
      some [Position.mk 20 0 0, Position.mk 2 1 2, Position.mk 5 4 5] := by decide
  exact c3_length_and_head 20 2 1 (fun n => n) _ h

/-- C4: whenever `get_positions` terminates, every placement's box
lies inside the canvas on both axes, and each non-canvas placement's
size lies in `[canvas_size/10, canvas_size/4]` (integer division:
termination forces the Python float quotients to be integral, where
they coincide with integer division). -/
theorem c4_bounds (canvas_size : Int) (count fuel : Nat) (rng : Nat → Nat)
    (ps : List Position) (h : get_positions canvas_size count rng fuel = some ps) :
    (∀ p ∈ ps, 0 ≤ p.x_position ∧ p.x_position + p.size ≤ canvas_size ∧
      0 ≤ p.y_position ∧ p.y_position + p.size ≤ canvas_size) ∧
    (∀ i, 0 < i → (hi : i < ps.length) →
      canvas_size / 10 ≤ (ps.get ⟨i, hi⟩).size ∧
        (ps.get ⟨i, hi⟩).size ≤ canvas_size / 4) := by
  obtain ⟨rest, hps, hlen, hrange, _⟩ := get_positions_spec _ _ _ _ _ h
  subst hps
  constructor
  · intro p hp
    rcases List.mem_cons.mp hp with hp | hp
    · subst hp; dsimp only; omega
    · have hb := hrange p hp
      exact ⟨hb.2.2.2.1, hb.2.2.2.2.1, hb.2.2.2.2.2.1, hb.2.2.2.2.2.2⟩
  · intro i h0 hi
    obtain ⟨i2, rfl⟩ : ∃ k, i = k + 1 := ⟨i - 1, by omega⟩
    have hi2 : i2 < rest.length := by simpa using hi
    simp only [List.get_eq_getElem, List.getElem_cons_succ]
    have hb := hrange _ (List.getElem_mem hi2)
    exact ⟨hb.1, hb.2.1⟩

/-- C4 witness: in the concrete run `get_positions 20 2`, the
placement `(5, 4, 5)` fits in the canvas and its size lies in
`[20/10, 20/4]`. -/
theorem c4_witness :
    ((0:Int) ≤ 4 ∧ (4:Int) + 5 ≤ 20 ∧ (0:Int) ≤ 5 ∧ (5:Int) + 5 ≤ 20) ∧
      ((20:Int) / 10 ≤ 5 ∧ (5:Int) ≤ 20 / 4) := by
  have h : get_positions 20 2 (fun n => n) 1 =
      some [Position.mk 20 0 0, Position.mk 2 1 2, Position.mk 5 4 5] := by decide
  have h2 := c4_bounds 20 2 1 (fun n => n) _ h
  exact ⟨h2.1 (Position.mk 5 4 5) (by decide), h2.2 2 (by decide) (by decide)⟩

/-- Normalises one bound of a Python/numpy slice `[a:b]` against an
axis of extent `dim`: a negative value counts from the end of the
axis, and the result is clamped into `[0, dim]`. -/
def npSliceIndex (v : Int) (dim : Nat) : Nat :=
  if v < 0 then
    (if v + dim < 0 then 0 else min (v + dim).toNat dim)
  else
    min v.toNat dim

/-- Embeds `Square._mask(shape, location)` pointwise: a boolean grid
of extent `shape[0] × shape[1]`, true exactly where the numpy slice
assignment `base[location[0] : location[0]+size,
location[1] : location[1]+size] = True` writes. -/
def Square.maskAt (size x y : Int) (H W : Nat) (px py : Nat) : Bool :=
  (decide (npSliceIndex x H ≤ px) && decide (px < npSliceIndex (x + size) H)) &&
  (decide (npSliceIndex y W ≤ py) && decide (py < npSliceIndex (y + size) W))

/-- Embeds `Circle._mask(shape, location)` pointwise: the float test
`(x_x - (location[0] + radius))**2 + (y_y - (location[1] + radius))**2
< radius**2` with `radius = size / 2`. The float arithmetic is exact
at these magnitudes, so the test is stated equivalently over `Int`
with both sides multiplied through by 4 (the rational form is proved
equivalent in the C8 theorem below). -/
def Circle.maskAt (size x y : Int) (px py : Nat) : Bool :=
  decide ((2 * (px : Int) - (2 * x + size)) ^ 2 +
      (2 * (py : Int) - (2 * y + size)) ^ 2 < size ^ 2)

/-- RGB colour triple. -/
abbrev Colour := Nat × Nat × Nat

/-- The two concrete subclasses of the abstract base class `Shape`. -/
inductive ShapeKind where
  | square
  | circle
deriving DecidableEq

/-- A shape: its variant, its `Position` and its colour (Python
default: black, `np.zeros(3)`). -/
structure Shape where
  kind : ShapeKind
  position : Position
  colour : Colour
deriving DecidableEq

/-- Dispatches `self._mask(target.shape, (self._position.x_position,
self._position.y_position))` to the concrete variant's `_mask`. -/
def Shape.mask (s : Shape) (H W : Nat) (px py : Nat) : Bool :=
  match s.kind with
  | ShapeKind.square =>
      Square.maskAt s.position.size s.position.x_position s.position.y_position H W px py
  | ShapeKind.circle =>
      Circle.maskAt s.position.size s.position.x_position s.position.y_position px py

/-- An image buffer, as the function sending a pixel coordinate to
its colour; the array extent `H × W` is carried alongside. -/
abbrev Image := Nat → Nat → Colour

/-- Models the numpy boolean-mask assignment `target[mask] = colour`:
every pixel where the mask is true becomes `colour`, every other
pixel keeps its previous value. -/
def npBoolSet (target : Image) (mask : Nat → Nat → Bool) (colour : Colour) : Image :=
  fun px py => if mask px py then colour else target px py

/-- Embeds `Shape.add_to_image(self, target)` on a buffer of extent
`H × W`: `target[self._mask(target.shape, (x, y))] = self._colour`.
The mask array spans exactly the buffer's extent, hence the bounds
conjuncts. -/
def Shape.add_to_image (s : Shape) (H W : Nat) (target : Image) : Image :=
  npBoolSet target
    (fun px py => decide (px < H) && decide (py < W) && s.mask H W px py) s.colour

/-- A slice bound lying inside `[0, dim]` normalises to itself. -/
theorem npSliceIndex_of_inside (v : Int) (dim : Nat) (h0 : 0 ≤ v) (h1 : v ≤ (dim : Int)) :
    npSliceIndex v dim = v.toNat := by
  unfold npSliceIndex
  rw [if_neg (by omega)]
  omega

/-- C7: for a box contained in the canvas the square mask is true
exactly on the half-open box `[x, x+size) × [y, y+size)`; and the
mask of `Square(Position(4, 2, 2))` on a 20×20 canvas holds exactly
16 true pixels. -/
theorem c7_square_mask (size x y : Int) (H W : Nat) (hs : 0 ≤ size)
    (hx0 : 0 ≤ x) (hxs : x + size ≤ (H : Int))
    (hy0 : 0 ≤ y) (hys : y + size ≤ (W : Int)) :
    (∀ px py : Nat, Square.maskAt size x y H W px py = true ↔
        (x ≤ (px : Int) ∧ (px : Int) < x + size ∧
          y ≤ (py : Int) ∧ (py : Int) < y + size)) ∧
      ((List.range 20).map (fun px =>
          ((List.range 20).filter (fun py => Square.maskAt 4 2 2 20 20 px py)).length)).sum
        = 16 := by
  constructor
  · intro px py
    rw [Square.maskAt,
      npSliceIndex_of_inside x H hx0 (by omega),
      npSliceIndex_of_inside (x + size) H (by omega) hxs,
      npSliceIndex_of_inside y W hy0 (by omega),
      npSliceIndex_of_inside (y + size) W (by omega) hys]
    simp only [Bool.and_eq_true, decide_eq_true_iff]
    omega
  · decide

/-- C7 witness: instantiated at `Square(Position(4, 2, 2))` on the
20×20 canvas, at the interior pixel `(3, 3)`. -/
theorem c7_witness :
    Square.maskAt 4 2 2 20 20 3 3 = true ∧
      ((List.range 20).map (fun px =>
          ((List.range 20).filter (fun py => Square.maskAt 4 2 2 20 20 px py)).length)).sum
        = 16 := by
  have h := c7_square_mask 4 2 2 20 20 (by decide) (by decide) (by decide)
    (by decide) (by decide)
  exact ⟨(h.1 3 3).mpr (by decide), h.2⟩

/-- C8: the circle mask is true at `(px, py)` iff
`(px - (x + r))² + (py - (y + r))² < r²` with `r = size/2` (strict
inequality, so boundary pixels are excluded); for
`Circle(Position(10, 0, 0))` the centre pixel `(5, 5)` is inside and
the corner pixel `(0, 0)` is outside. -/
theorem c8_circle_mask :
    (∀ (size x y : Int) (px py : Nat),
        Circle.maskAt size x y px py = true ↔
          ((px : ℚ) - ((x : ℚ) + (size : ℚ) / 2)) ^ 2 +
              ((py : ℚ) - ((y : ℚ) + (size : ℚ) / 2)) ^ 2 < ((size : ℚ) / 2) ^ 2) ∧
      Circle.maskAt 10 0 0 5 5 = true ∧ Circle.maskAt 10 0 0 0 0 = false := by
  refine ⟨?_, by decide, by decide⟩
  intro size x y px py
  rw [Circle.maskAt, decide_eq_true_iff]
  rw [show ((px : ℚ) - ((x : ℚ) + (size : ℚ) / 2)) ^ 2 +
        ((py : ℚ) - ((y : ℚ) + (size : ℚ) / 2)) ^ 2
      = (1 / 4) * ((2 * (px : ℚ) - (2 * (x : ℚ) + (size : ℚ))) ^ 2 +
          (2 * (py : ℚ) - (2 * (y : ℚ) + (size : ℚ))) ^ 2) from by ring,
    show ((size : ℚ) / 2) ^ 2 = (1 / 4) * ((size : ℚ)) ^ 2 from by ring]
  constructor
  · intro h
    have hq : (2 * (px : ℚ) - (2 * (x : ℚ) + (size : ℚ))) ^ 2 +
        (2 * (py : ℚ) - (2 * (y : ℚ) + (size : ℚ))) ^ 2 < ((size : ℚ)) ^ 2 := by
      exact_mod_cast h
    linarith
  · intro h
    have hq : (2 * (px : ℚ) - (2 * (x : ℚ) + (size : ℚ))) ^ 2 +
        (2 * (py : ℚ) - (2 * (y : ℚ) + (size : ℚ))) ^ 2 < ((size : ℚ)) ^ 2 := by
      linarith
    exact_mod_cast hq

/-- C9: painting a shape onto a buffer sets every pixel where its
mask is true to the shape's colour and leaves every pixel where its
mask is false unchanged. -/
theorem c9_paint_frame (s : Shape) (H W : Nat) (target : Image) (px py : Nat)
    (hpx : px < H) (hpy : py < W) :
    (s.mask H W px py = true → s.add_to_image H W target px py = s.colour) ∧
      (s.mask H W px py = false → s.add_to_image H W target px py = target px py) := by
  constructor <;> intro hm <;>
    simp [Shape.add_to_image, npBoolSet, hm, hpx, hpy]

/-- C9 witness: a unit square painted grey onto a black 2×2 buffer,
observed at pixel `(0, 0)`. -/
theorem c9_witness :
    (Shape.mask (Shape.mk ShapeKind.square (Position.mk 1 0 0) (5, 5, 5)) 2 2 0 0 = true →
        Shape.add_to_image (Shape.mk ShapeKind.square (Position.mk 1 0 0) (5, 5, 5)) 2 2
          (fun _ _ => (0, 0, 0)) 0 0 = (5, 5, 5)) ∧
      (Shape.mask (Shape.mk ShapeKind.square (Position.mk 1 0 0) (5, 5, 5)) 2 2 0 0 = false →
        Shape.add_to_image (Shape.mk ShapeKind.square (Position.mk 1 0 0) (5, 5, 5)) 2 2
          (fun _ _ => (0, 0, 0)) 0 0 = (0, 0, 0)) :=
  c9_paint_frame (Shape.mk ShapeKind.square (Position.mk 1 0 0) (5, 5, 5)) 2 2
    (fun _ _ => (0, 0, 0)) 0 0 (by decide) (by decide)

/-- C10: painting the same shape onto a buffer twice produces the
same buffer as painting it once. -/
theorem c10_paint_idempotent (s : Shape) (H W : Nat) (target : Image) :
    s.add_to_image H W (s.add_to_image H W target) = s.add_to_image H W target := by
  funext px py
  by_cases hmask : (decide (px < H) && decide (py < W) && s.mask H W px py) = true
  · simp [Shape.add_to_image, npBoolSet, hmask]
  · simp [Shape.add_to_image, npBoolSet, hmask]
